import Mathlib

/-!
Verification of the bpf-fs-events event ingestion and reassembly pipeline.

This file gives a shallow embedding of the userspace side of the
repository: the record codec (`EffectType`/`PathType` conversions), the
ringbuf-mode fragment reassembler of `bpf-fs-events/src/lib.rs`
(`PartialPaths::continue_with`), the duplicated ev-ringbuf variant in
`bpf-fs-events/src/ingest.rs`, the array-mode decoder of
`bpf-fs-events/src/event.rs` (`reordered_name_offsets`,
`reordered_buf_to_string`), the fan-out write/prune loop of
`bpf-fs-events-sock/src/unix_sock_stream_server.rs`, the server
constructor's filesystem effects, and the accepter task's greeting gate.

Conventions:
- Rust strings and byte buffers are `List Nat` (their bytes); `str` values
  are represented by their UTF-8 bytes.
- Machine integers (`u8`, `u16`, `u32`, `u64`) are `Nat`; no arithmetic in
  the modelled code can overflow, so no explicit modulus is needed.
- A Rust panic (`unwrap`, `unreachable!`, out-of-bounds index) is `none`
  in an `Option`-returning embedding.
-/

/-- Bytes of an ASCII string literal, used to write byte-list constants
readably.  For the ASCII strings appearing in this file, `Char.toNat`
of each character is exactly its UTF-8 byte. -/
def strBytes (s : String) : List Nat :=
  s.data.map Char.toNat

/-- UTF-8 validity of a byte sequence, as checked by Rust's
`std::str::from_utf8` (table from RFC 3629 / the Unicode standard:
no surrogates, no overlongs, max U+10FFFF). -/
def utf8Valid : List Nat → Bool
  | [] => true
  | b :: bs =>
    if b ≤ 0x7F then
      utf8Valid bs
    else if 0xC2 ≤ b && b ≤ 0xDF then
      match bs with
      | c :: bs2 => (0x80 ≤ c && c ≤ 0xBF) && utf8Valid bs2
      | [] => false
    else if b = 0xE0 then
      match bs with
      | c :: d :: bs2 => (0xA0 ≤ c && c ≤ 0xBF) && (0x80 ≤ d && d ≤ 0xBF) && utf8Valid bs2
      | _ => false
    else if (0xE1 ≤ b && b ≤ 0xEC) || b = 0xEE || b = 0xEF then
      match bs with
      | c :: d :: bs2 => (0x80 ≤ c && c ≤ 0xBF) && (0x80 ≤ d && d ≤ 0xBF) && utf8Valid bs2
      | _ => false
    else if b = 0xED then
      match bs with
      | c :: d :: bs2 => (0x80 ≤ c && c ≤ 0x9F) && (0x80 ≤ d && d ≤ 0xBF) && utf8Valid bs2
      | _ => false
    else if b = 0xF0 then
      match bs with
      | c :: d :: e :: bs2 =>
        (0x90 ≤ c && c ≤ 0xBF) && (0x80 ≤ d && d ≤ 0xBF) && (0x80 ≤ e && e ≤ 0xBF)
          && utf8Valid bs2
      | _ => false
    else if 0xF1 ≤ b && b ≤ 0xF3 then
      match bs with
      | c :: d :: e :: bs2 =>
        (0x80 ≤ c && c ≤ 0xBF) && (0x80 ≤ d && d ≤ 0xBF) && (0x80 ≤ e && e ≤ 0xBF)
          && utf8Valid bs2
      | _ => false
    else if b = 0xF4 then
      match bs with
      | c :: d :: e :: bs2 =>
        (0x80 ≤ c && c ≤ 0x8F) && (0x80 ≤ d && d ≤ 0xBF) && (0x80 ≤ e && e ≤ 0xBF)
          && utf8Valid bs2
      | _ => false
    else
      false

/-- `std::str::from_utf8(span)` on byte span `bs`: `some` of the same
bytes (a `&str` is its UTF-8 bytes) when valid, `none` (an `Err`, which
the callers in this repository `unwrap`, turning it into a panic)
otherwise. -/
def utf8Decode (bs : List Nat) : Option (List Nat) :=
  if utf8Valid bs then some bs else none

/-- `EffectType` from `bpf-fs-events/src/lib.rs` (named `Continuation` /
`Association` in `src/event.rs`; the two enums are identical). -/
inductive EffectType where
  | create
  | rename
  | link
  | delete
  | cont
  | assoc
deriving DecidableEq

/-- `impl From<u8> for EffectType` (lib.rs lines 61-73 and event.rs lines
143-155): values 0-5 map to the six variants, anything else hits
`unreachable!()`, i.e. a panic, modelled as `none`. -/
def EffectType.fromU8 (v : Nat) : Option EffectType :=
  match v with
  | 0 => some .create
  | 1 => some .rename
  | 2 => some .link
  | 3 => some .delete
  | 4 => some .cont
  | 5 => some .assoc
  | _ => none

/-- `PathType` from `bpf-fs-events/src/lib.rs`. -/
inductive PathType where
  | dir
  | file
  | symlink
  | hardlink
  | blockdev
  | socket
  | cont
  | unknown
deriving DecidableEq

/-- `impl From<u8> for PathType`: total, out-of-range values soften to
`Unknown`. -/
def PathType.fromU8 (v : Nat) : PathType :=
  match v with
  | 0 => .dir
  | 1 => .file
  | 2 => .symlink
  | 3 => .hardlink
  | 4 => .blockdev
  | 5 => .socket
  | 6 => .cont
  | _ => .unknown

/-- A decoded kernel record (`watcher_types::event`) as consumed by the
ringbuf-mode reassembler.  `buf` holds the first `buf_len` valid bytes of
the fixed-size buffer (`buf_as_bytes` / `path_name_from_bpf_event` read
exactly that span). -/
structure RawRecord where
  timestamp : Nat
  pid : Nat
  effect_type : Nat
  path_type : Nat
  buf : List Nat
  event_group_id : Nat
deriving DecidableEq

/-- `Event` from `bpf-fs-events/src/lib.rs` (the emitted logical event). -/
structure Event where
  path_name : List Nat
  associated : Option (List Nat)
  timestamp : Nat
  pid : Nat
  path_type : PathType
  effect_type : EffectType
deriving DecidableEq

/-- `enum Continuation` (lib.rs lines 99-103): the pending/complete flag
held by the reassembler state. -/
inductive Continuation where
  | pending
  | complete
deriving DecidableEq

/-- `struct PartialPaths` (lib.rs lines 105-110).  The two `VecDeque`s
are lists in front-to-back order, so `push_front` is `List.cons`. -/
structure PartialPaths where
  path_names : List (List Nat)
  associated : List (List Nat)
  event_group_id : Nat
  state : Continuation
deriving DecidableEq

/-- `PartialPaths::new` (lib.rs lines 120-127). -/
def PartialPaths.new : PartialPaths :=
  { path_names := [], associated := [], event_group_id := 0, state := .pending }

/-- `PartialPaths::deque_to_path_name` (lib.rs lines 129-133): fold the
deque front-to-back, prepending a `/` (byte 47) before each part. -/
def dequeToPathName (deque : List (List Nat)) : List Nat :=
  deque.foldl (fun path part => path ++ 47 :: part) []

/-- The group-id guard at the top of `PartialPaths::continue_with`
(lib.rs lines 143-148): a differing `event_group_id` clears both deques
and adopts the new group id. -/
def groupReset (s : PartialPaths) (event : RawRecord) : PartialPaths :=
  if event.event_group_id ≠ s.event_group_id then
    { s with path_names := [], associated := [], event_group_id := event.event_group_id }
  else
    s

/-- The effect-type dispatch of `PartialPaths::continue_with` (lib.rs
lines 149-181), applied after `groupReset`.  Returns `none` when the
code would panic: `EffectType::from` on a byte outside 0-5
(`unreachable!()`), or `path_name_from_bpf_event`'s
`std::str::from_utf8(..).unwrap()` on invalid UTF-8. -/
def continueWithCore (s : PartialPaths) (event : RawRecord) :
    Option (PartialPaths × Option Event) :=
  match EffectType.fromU8 event.effect_type with
  | none => none
  | some .assoc =>
    some ({ s with associated := [] :: s.associated, state := .pending }, none)
  | some .cont =>
    match utf8Decode event.buf with
    | none => none
    | some path_name =>
      match s.associated.length with
      | 0 => some ({ s with path_names := path_name :: s.path_names, state := .pending }, none)
      | _ => some ({ s with associated := path_name :: s.associated, state := .pending }, none)
  | some effect_type =>
    some ({ s with state := .complete },
      some { path_name := dequeToPathName s.path_names,
             associated :=
               match s.associated.length with
               | 0 => none
               | _ => some (dequeToPathName s.associated),
             timestamp := event.timestamp,
             pid := event.pid,
             path_type := PathType.fromU8 event.path_type,
             effect_type := effect_type })

/-- `PartialPaths::continue_with` (lib.rs lines 142-183). -/
def continueWith (s : PartialPaths) (event : RawRecord) :
    Option (PartialPaths × Option Event) :=
  continueWithCore (groupReset s event) event

/-- Feeding a list of records through `continue_with` in order, as
`accumulating_event_handler` does record by record (lib.rs lines
212-235), collecting every emitted event.  `none` when any record
panics. -/
def runLib : PartialPaths → List RawRecord → Option (PartialPaths × List Event)
  | s, [] => some (s, [])
  | s, r :: rs =>
    match continueWith s r with
    | none => none
    | some (s2, emitted) =>
      match runLib s2 rs with
      | none => none
      | some (s3, evs) => some (s3, emitted.toList ++ evs)

/-- A continuation record: `effect_type` 4 (Cont), `path_type` 6, carrying
one path component in `buf`. -/
def contRec (gid : Nat) (component : List Nat) : RawRecord :=
  { timestamp := 0, pid := 0, effect_type := 4, path_type := 6,
    buf := component, event_group_id := gid }

/-- An association record: `effect_type` 5 (Assoc), empty buffer. -/
def assocRec (gid : Nat) : RawRecord :=
  { timestamp := 0, pid := 0, effect_type := 5, path_type := 6,
    buf := [], event_group_id := gid }

/-- A terminal record with the given effect byte (0-3), path-type byte,
timestamp and pid; terminal records carry no path bytes of their own in
ringbuf mode. -/
def termRec (gid : Nat) (effect : Nat) (pathType : Nat) (ts : Nat) (pid : Nat) : RawRecord :=
  { timestamp := ts, pid := pid, effect_type := effect, path_type := pathType,
    buf := [], event_group_id := gid }

/-- The record sequence of scenario S2: two continuations, an
association, two more continuations, then a terminal rename, all in
group 2. -/
def s2Records : List RawRecord :=
  [contRec 2 (strBytes ("a")), contRec 2 (strBytes ("d")), assocRec 2,
   contRec 2 (strBytes ("b")), contRec 2 (strBytes ("d")),
   termRec 2 1 1 2000 11]

/-- The event the code actually emits for S2: the empty association
sentinel is joined into the associated path, leaving a trailing slash. -/
def s2Emitted : Event :=
  { path_name := strBytes ("/d/a"), associated := some (strBytes ("/d/b/")),
    timestamp := 2000, pid := 11, path_type := .file, effect_type := .rename }

/-- A decoded kernel record in array mode (`watcher_types::event` with
the `ev-array` layout): `buf` holds the first `buf_len` valid bytes (as
read by `buf_as_bytes`, so `buf_len = buf.length`), and `name_offsets`
is the fixed-length (64-entry) offsets array. -/
structure ArrRawEvent where
  timestamp : Nat
  pid : Nat
  effect_type : Nat
  path_type : Nat
  buf : List Nat
  name_offsets : List Nat
deriving DecidableEq

/-- The `for idx in (1..len).rev()` loop of
`RawEvent::reordered_name_offsets` (event.rs lines 79-91), with the
countdown argument standing for the live `idx`: at argument `i + 1` the
loop body reads `beg = name_offsets[i+1]`, `end = name_offsets[i]`,
breaks when `end == 0`, pushes `(beg, end)` when
`beg < end && end <= buf_len`, and otherwise only logs. -/
def offsetPairsFrom (offsets : List Nat) (bufLen : Nat) : Nat → List (Nat × Nat)
  | 0 => []
  | i + 1 =>
    let beg := offsets.getD (i + 1) 0
    let e := offsets.getD i 0
    if e = 0 then []
    else if beg < e ∧ e ≤ bufLen then (beg, e) :: offsetPairsFrom offsets bufLen i
    else offsetPairsFrom offsets bufLen i

/-- `RawEvent::reordered_name_offsets` (event.rs lines 74-94): an
unconditional first pair `(0, name_offsets[len-1])`, the loop pairs, and
then `reordered.reverse()`. -/
def reorderedNameOffsets (ev : ArrRawEvent) : List (Nat × Nat) :=
  ((0, ev.name_offsets.getD (ev.name_offsets.length - 1) 0)
      :: offsetPairsFrom ev.name_offsets ev.buf.length (ev.name_offsets.length - 1)).reverse

/-- The `push_path_component` closure of
`RawEvent::reordered_buf_to_string` (event.rs lines 101-107): slice
`buf[beg..end]` (a panic, `none`, when the range is invalid — possible
only for the unvalidated first pair), decode as UTF-8 (`unwrap`: `none`
on invalid bytes), and append `/` followed by the component. -/
def pushPathComponent (buf : List Nat) (acc : Option (List Nat)) (p : Nat × Nat) :
    Option (List Nat) :=
  match acc with
  | none => none
  | some name =>
    if p.1 ≤ p.2 ∧ p.2 ≤ buf.length then
      match utf8Decode ((buf.drop p.1).take (p.2 - p.1)) with
      | none => none
      | some component => some (name ++ 47 :: component)
    else none

/-- `RawEvent::reordered_buf_to_string` (event.rs lines 96-113). -/
def reorderedBufToString (ev : ArrRawEvent) : Option (List Nat) :=
  (reorderedNameOffsets ev).foldl (pushPathComponent ev.buf) (some [])

/-- The ev-array `PartialPaths::continue_with` (ingest.rs lines
126-149).  Its state is just the pending associated path
(`Option`); an `Association` record stores its decoded path, any other
record (including `Continuation`!) emits an event carrying the stored
association.  `none` models the panics of `EffectType::from` and
`reordered_buf_to_string`. -/
def arrContinueWith (pendingAssoc : Option (List Nat)) (ev : ArrRawEvent) :
    Option (Option (List Nat) × Option Event) :=
  match EffectType.fromU8 ev.effect_type with
  | none => none
  | some .assoc =>
    match reorderedBufToString ev with
    | none => none
    | some p => some (some p, none)
  | some effect_type =>
    match reorderedBufToString ev with
    | none => none
    | some path_name =>
      some (none,
        some { path_name := path_name, associated := pendingAssoc,
               timestamp := ev.timestamp, pid := ev.pid,
               path_type := PathType.fromU8 ev.path_type,
               effect_type := effect_type })

/-- The S4 record: `buf` is the bytes of `"ab"`, `"cd"`, `"ef"`
concatenated, `name_offsets` is 64 entries, right-aligned, ending in
6, 4, 2; the record is a terminal create of a file. -/
def s4Record : ArrRawEvent :=
  { timestamp := 4000, pid := 13, effect_type := 0, path_type := 1,
    buf := strBytes ("abcdef"),
    name_offsets := List.replicate 61 0 ++ [6, 4, 2] }

/-- `struct PartialPaths` of the ev-ringbuf variant (ingest.rs lines
14-24, 47-55): a `PathAcc` deque in push-back order, an optional
associated accumulator, and the pending/complete flag.  There is no
group-id field — that guard is commented out in this variant. -/
structure IngestPaths where
  items : List (List Nat)
  associated : Option (List (List Nat))
  state : Continuation
deriving DecidableEq

/-- `PartialPaths::new` of the ev-ringbuf variant. -/
def IngestPaths.new : IngestPaths :=
  { items := [], associated := none, state := .pending }

/-- `PathAcc::concat_items_to_path_name` (ingest.rs lines 37-44): fold
over the deque in reverse order, prepending `/` before each part. -/
def concatItemsToPathName (items : List (List Nat)) : List Nat :=
  items.reverse.foldl (fun path part => path ++ 47 :: part) []

/-- The ev-ringbuf `PartialPaths::continue_with` (ingest.rs lines
75-124).  Before the dispatch, the `eprintln!` on lines 84-89 evaluates
`EffectType::from(event.effect_type)` (panic on bytes outside 0-5) and
`event.path_name_buf_to_str()` (UTF-8 unwrap panic) for every record.
There is no group-id reset; continuations are pushed at the back; a
terminal record clears the whole state. -/
def ingestContinueWith (s : IngestPaths) (event : RawRecord) :
    Option (IngestPaths × Option Event) :=
  match EffectType.fromU8 event.effect_type with
  | none => none
  | some effect =>
    match utf8Decode event.buf with
    | none => none
    | some path_name =>
      match effect with
      | .cont =>
        match s.associated with
        | some assoc =>
          some ({ s with associated := some (assoc ++ [path_name]), state := .pending }, none)
        | none =>
          some ({ s with items := s.items ++ [path_name], state := .pending }, none)
      | .assoc =>
        some ({ s with associated := some [], state := .pending }, none)
      | effect_type =>
        some ({ items := [], associated := none, state := .complete },
          some { path_name := concatItemsToPathName s.items,
                 associated := s.associated.map concatItemsToPathName,
                 timestamp := event.timestamp, pid := event.pid,
                 path_type := PathType.fromU8 event.path_type,
                 effect_type := effect_type })

/-- Feeding a list of records through the ev-ringbuf variant's
`continue_with`, collecting every emitted event. -/
def runIngest : IngestPaths → List RawRecord → Option (IngestPaths × List Event)
  | s, [] => some (s, [])
  | s, r :: rs =>
    match ingestContinueWith s r with
    | none => none
    | some (s2, emitted) =>
      match runIngest s2 rs with
      | none => none
      | some (s3, evs) => some (s3, emitted.toList ++ evs)

/-- A connected subscriber stream as seen by the fan-out loop: whether
writes to it succeed (`healthy = false` means every `write_all` fails
with broken pipe), and the events it has received so far (each event's
serialized bytes stand behind an abstract event id). -/
structure Client where
  healthy : Bool
  received : List Nat
deriving DecidableEq

/-- A successful `write_all` of event `e` to a client: healthy clients
append the event, writes to broken clients leave them unchanged. -/
def recvEvent (e : Nat) (c : Client) : Client :=
  if c.healthy then { c with received := c.received ++ [e] } else c

/-- The `for idx in 0..self.clients.len()` write loop of
`Server::try_send_fs_events_blocking` (unix_sock_stream_server.rs lines
118-130), with `i` the index of the first client in the remaining list:
healthy clients receive the event, each broken client's current index is
sent to the prune channel (in loop order), and broken clients stay in
the list. -/
def writeAllIdx (e : Nat) : List Client → Nat → List Client × List Nat
  | [], _ => ([], [])
  | c :: cs, i =>
    let rest := writeAllIdx e cs (i + 1)
    if c.healthy then ({ c with received := c.received ++ [e] } :: rest.1, rest.2)
    else (c :: rest.1, i :: rest.2)

/-- The state owned by the fan-out main loop: the subscriber `Vec`, the
contents of the accept channel, and the contents of the prune channel
(both FIFO). -/
structure ServerState where
  clients : List Client
  acceptedQ : List Client
  removedQ : List Nat
deriving DecidableEq

/-- One call of `Server::try_send_fs_events_blocking`
(unix_sock_stream_server.rs lines 109-133) in which `poll_indefinite`
returns the event `e`: `if let Ok(..) = accepted_rx.try_recv()` admits at
most one queued stream; `if let Ok(..) = removed_rx.try_recv()` removes
at most one queued index via `Vec::remove` (which panics — `none` — when
the index is out of bounds); then the event is written to every
remaining client, queueing the index of each broken one. -/
def serverStep (s : ServerState) (e : Nat) : Option ServerState :=
  let s1 :=
    match s.acceptedQ with
    | [] => s
    | a :: q => { s with clients := s.clients ++ [a], acceptedQ := q }
  match s1.removedQ with
  | [] =>
    let w := writeAllIdx e s1.clients 0
    some { s1 with clients := w.1, removedQ := w.2 }
  | i :: q =>
    if i < s1.clients.length then
      let s2 : ServerState := { s1 with clients := s1.clients.eraseIdx i, removedQ := q }
      let w := writeAllIdx e s2.clients 0
      some { s2 with clients := w.1, removedQ := q ++ w.2 }
    else
      none

/-- The outcome of the `kill(pid, SIGTERM)` call in `Server::try_new`:
success, "no such process" (`ESRCH`, tolerated), or any other errno
(startup failure). -/
inductive KillOutcome where
  | ok
  | esrch
  | fails
deriving DecidableEq

/-- The filesystem state `Server::try_new` manipulates: the PID file
(`none` absent; `some none` present with unparseable contents;
`some (some n)` present containing the decimal pid `n`) and whether the
socket node exists. -/
structure FsState where
  pidFile : Option (Option Nat)
  sockNode : Bool
deriving DecidableEq

/-- The filesystem effects of `Server::try_new`
(unix_sock_stream_server.rs lines 30-72), for a process with pid
`selfPid`, given the outcome `ko` of the kill and whether
`FsEvents::try_new` succeeds.  Stages, in source order: read and parse
the PID file and signal the recorded pid (`.error` with the filesystem
untouched when the signal fails with an errno other than `ESRCH`);
remove any existing socket node and PID file; write the current pid to
the PID file; construct the watcher (`.error` on failure — the `?` in
the struct literal returns before `spawn_accept_task` runs, so no
socket is bound, but the just-written PID file stays); on success the
spawned accepter task binds the socket node.  The `remove_file` and
`write` calls themselves are modelled as succeeding. -/
def tryNew (fs : FsState) (selfPid : Nat) (ko : KillOutcome) (watcherOk : Bool) :
    Except FsState FsState :=
  let killStep : Option FsState :=
    match fs.pidFile with
    | some (some _) =>
      match ko with
      | .fails => none
      | _ => some fs
    | _ => some fs
  match killStep with
  | none => .error fs
  | some _ =>
    let afterWrite : FsState := { pidFile := some (some selfPid), sockNode := false }
    if watcherOk then .ok { afterWrite with sockNode := true }
    else .error afterWrite

/-- The result of the greeting `stream.read(&mut buf)` in
`Server::spawn_accept_task` (unix_sock_stream_server.rs lines 85-100):
`ok bs` is `Ok(n)` returning the `n` bytes `bs` (so `ok []` is `Ok(0)`,
a client that disconnected before sending anything), `err` is
`Err(_)`. -/
inductive ReadResult where
  | ok (bs : List Nat)
  | err
deriving DecidableEq

/-- Whether the accepted stream is forwarded to the main loop
(`accepted_tx.send(stream)`) after the greeting read, per the `match` in
`spawn_accept_task`: `Ok(0)` and invalid UTF-8 `continue` (drop the
stream); `Ok(n)` with valid UTF-8 logs and falls through to the send;
`Err(e)` only logs the error and also falls through to the send. -/
def acceptForwards : ReadResult → Bool
  | .ok [] => false
  | .ok bs => utf8Valid bs
  | .err => true

/-- The gate claim C10 asserts, written from the claim's words for
comparison with `acceptForwards`: forward exactly when the first read
returned at least one byte forming valid UTF-8. -/
def claimGreetingGate : ReadResult → Bool
  | .ok [] => false
  | .ok bs => utf8Valid bs
  | .err => false

/-- The record pair on which the two ringbuf reassembler variants
diverge: an association immediately followed by a terminal create in the
same group. -/
def c7CexRecords : List RawRecord :=
  [assocRec 7, termRec 7 0 1 5 6]

/-- Fan-out state with two broken subscribers ahead of one healthy
subscriber and empty channels. -/
def c8CexInit : ServerState :=
  { clients := [{ healthy := false, received := [] },
                { healthy := false, received := [] },
                { healthy := true, received := [] }],
    acceptedQ := [], removedQ := [] }

theorem continueWithCore_state_irrel (p a : List (List Nat)) (g : Nat)
    (st1 st2 : Continuation) (r : RawRecord) :
    continueWithCore ⟨p, a, g, st1⟩ r = continueWithCore ⟨p, a, g, st2⟩ r := by
  unfold continueWithCore
  cases hE : EffectType.fromU8 r.effect_type with
  | none => rfl
  | some e =>
    cases e <;> cases hU : utf8Decode r.buf <;> cases a <;>
      simp [hE, hU]

theorem continueWith_group_change {s : PartialPaths} {r : RawRecord}
    (h : r.event_group_id ≠ s.event_group_id) :
    continueWith s r = continueWith PartialPaths.new r := by
  unfold continueWith
  have h1 : groupReset s r =
      ⟨[], [], r.event_group_id, s.state⟩ := by
    simp [groupReset, h]
  have h2 : groupReset PartialPaths.new r =
      ⟨[], [], r.event_group_id, Continuation.pending⟩ := by
    by_cases h0 : r.event_group_id = 0
    · simp [groupReset, PartialPaths.new, h0]
    · simp [groupReset, PartialPaths.new, h0]
  rw [h1, h2]
  exact continueWithCore_state_irrel [] [] r.event_group_id s.state .pending r

/-- Claim C6: a record whose `event_group_id` differs from the stored
current group id makes the reassembler discard every accumulated path
and association segment before processing it, so the rest of the run —
and in particular the next emitted event — is exactly what it would be
from a fresh state: only records of the latest group contribute. -/
theorem c6_group_reset (s : PartialPaths) (r : RawRecord) (rs : List RawRecord)
    (h : r.event_group_id ≠ s.event_group_id) :
    runLib s (r :: rs) = runLib PartialPaths.new (r :: rs) := by
  simp only [runLib, continueWith_group_change h]

/-- Claim C6 witness: scenario S3 — state holding the `x` fragment of
group 3, then a group-4 continuation `y` and a group-4 create; the run
equals the fresh-state run (the `x` fragment is discarded). -/
theorem c6_group_reset_witness :
    (contRec 4 (strBytes ("y"))).event_group_id ≠
      (PartialPaths.mk [strBytes ("x")] [] 3 .pending).event_group_id
    ∧ runLib (PartialPaths.mk [strBytes ("x")] [] 3 .pending)
        (contRec 4 (strBytes ("y")) :: [termRec 4 0 0 3000 12])
      = runLib PartialPaths.new (contRec 4 (strBytes ("y")) :: [termRec 4 0 0 3000 12]) :=
  ⟨by decide,
   c6_group_reset (PartialPaths.mk [strBytes ("x")] [] 3 .pending)
     (contRec 4 (strBytes ("y"))) [termRec 4 0 0 3000 12] (by decide)⟩

theorem EffectType.fromU8_ge6 (v : Nat) (h : 6 ≤ v) : EffectType.fromU8 v = none := by
  match v, h with
  | n + 6, _ => rfl

/-- Claim C4 counterexample: a record with effect byte 6 makes
`continue_with` hit `unreachable!()` in `EffectType::from` — a panic
(`none`), not a logged, dropped record with processing continuing. -/
theorem c4_counterexample :
    continueWith PartialPaths.new
      { timestamp := 0, pid := 0, effect_type := 6, path_type := 0,
        buf := [], event_group_id := 0 } = none := by
  decide

/-- Claim C4 (amended): a record whose effect_type byte is outside 0-5
is not handled as a recoverable decode error; `impl From<u8> for
EffectType` hits `unreachable!()` and the record-processing callback
panics (modelled as `none`), aborting instead of dropping the record and
continuing. -/
theorem c4_amended (s : PartialPaths) (r : RawRecord) (h : 6 ≤ r.effect_type) :
    continueWith s r = none := by
  unfold continueWith continueWithCore
  rw [EffectType.fromU8_ge6 _ h]

/-- Claim C4 witness: the amended claim at effect byte 7. -/
theorem c4_amended_witness :
    6 ≤ (RawRecord.mk 1 2 7 0 [] 9).effect_type
    ∧ continueWith PartialPaths.new (RawRecord.mk 1 2 7 0 [] 9) = none :=
  ⟨by decide, c4_amended PartialPaths.new (RawRecord.mk 1 2 7 0 [] 9) (by decide)⟩

/-- Claim C5 counterexample: a continuation whose buffer is the invalid
UTF-8 byte 0xFF followed by a terminal create. `path_name_from_bpf_event`'s
`unwrap` panics (`none`): the component is not dropped, processing does
not continue, and no event is emitted at the terminal record. -/
theorem c5_counterexample :
    runLib PartialPaths.new [contRec 1 [255], termRec 1 0 1 3 4] = none := by
  decide

/-- Claim C5 (amended): a continuation record whose path bytes are not
valid UTF-8 panics the reassembler (`std::str::from_utf8(..).unwrap()`):
the conversion is not total and the failure is not recovered locally —
the whole callback aborts instead of dropping the component. -/
theorem c5_amended (s : PartialPaths) (r : RawRecord)
    (h4 : r.effect_type = 4) (hbad : utf8Valid r.buf = false) :
    continueWith s r = none := by
  unfold continueWith continueWithCore
  have hE : EffectType.fromU8 r.effect_type = some .cont := by rw [h4]; rfl
  rw [hE]
  have hU : utf8Decode r.buf = none := by simp [utf8Decode, hbad]
  rw [hU]

/-- Claim C5 witness: the amended claim at the buffer `[0xC0]` (an
overlong-encoding lead byte, never valid UTF-8). -/
theorem c5_amended_witness :
    (contRec 2 [192]).effect_type = 4
    ∧ utf8Valid (contRec 2 [192]).buf = false
    ∧ continueWith PartialPaths.new (contRec 2 [192]) = none :=
  ⟨by decide, by decide,
   c5_amended PartialPaths.new (contRec 2 [192]) (by decide) (by decide)⟩

/-- Claim C10 counterexample: a greeting read that fails with an error
(`Err(_)`) — no bytes at all, hence no valid-UTF-8 greeting — still
falls through to `accepted_tx.send(stream)`: the client is appended to
the subscriber list, contradicting the claimed "if and only if". -/
theorem c10_counterexample :
    acceptForwards ReadResult.err = true ∧ claimGreetingGate ReadResult.err = false := by
  decide

/-- Claim C10 (amended): the accepted stream is forwarded to the
subscriber list iff the greeting read returned at least one byte of
valid UTF-8 — or failed with a read error, which only logs and still
forwards.  `Ok(0)` (disconnect before sending) and invalid UTF-8 are
the only dropped cases. -/
theorem c10_amended (r : ReadResult) :
    acceptForwards r = (claimGreetingGate r || decide (r = ReadResult.err)) := by
  cases r with
  | ok bs => cases bs <;> simp [acceptForwards, claimGreetingGate]
  | err => simp [acceptForwards, claimGreetingGate]

/-- Claim C1 (code bug): on the S4 record — `buf` the bytes of
`"ab" | "cd" | "ef"`, `name_offsets` right-aligned ending in 6, 4, 2,
terminal create — `reordered_buf_to_string` yields `"/ef/cd/ab"`, not
the `"/ab/cd/ef"` the claim (and the function's own comment, which
promises the pair order `[(0, 9), (9, 15), (15, 20)]` without the final
`reverse()`) requires. -/
theorem c1_reordered_eval :
    arrContinueWith none s4Record
      = some (none,
          some { path_name := strBytes ("/ef/cd/ab"), associated := none,
                 timestamp := 4000, pid := 13, path_type := .file,
                 effect_type := .create })
    ∧ (decide (strBytes ("/ef/cd/ab") = strBytes ("/ab/cd/ef"))) = false := by
  exact ⟨by decide, by decide⟩

/-- Claim C2 counterexample: on the S2 record sequence the emitted
event's associated path is `"/d/b/"` — the empty association sentinel is
joined into the path, leaving a trailing slash — not the claimed
`"/d/b"`. -/
theorem c2_counterexample :
    runLib PartialPaths.new s2Records
      = some ({ path_names := [strBytes ("d"), strBytes ("a")],
                associated := [strBytes ("d"), strBytes ("b"), []],
                event_group_id := 2, state := .complete }, [s2Emitted])
    ∧ (decide (s2Emitted.associated = some (strBytes ("/d/b")))) = false := by
  exact ⟨by decide, by decide⟩

/-- Claim C2 (amended): on the S2 sequence the reassembler emits nothing
for the first five records and exactly one event at the terminal rename,
with `path_name = "/d/a"` and `associated = "/d/b/"`: the empty sentinel
pushed at the front of the association deque stays in the deque and
renders as a trailing `/`. -/
theorem c2_amended :
    runLib PartialPaths.new (s2Records.take 5)
      = some ({ path_names := [strBytes ("d"), strBytes ("a")],
                associated := [strBytes ("d"), strBytes ("b"), []],
                event_group_id := 2, state := .pending }, [])
    ∧ runLib PartialPaths.new s2Records
      = some ({ path_names := [strBytes ("d"), strBytes ("a")],
                associated := [strBytes ("d"), strBytes ("b"), []],
                event_group_id := 2, state := .complete }, [s2Emitted])
    ∧ s2Emitted.path_name = strBytes ("/d/a")
    ∧ s2Emitted.associated = some (strBytes ("/d/b/"))
    ∧ s2Emitted.effect_type = .rename := by
  refine ⟨by decide, by decide, by decide, by decide, by decide⟩

theorem foldl_slash_ext (d : List (List Nat)) :
    ∀ acc : List Nat,
      ∃ t, List.foldl (fun path part => path ++ 47 :: part) acc d = acc ++ t := by
  induction d with
  | nil => intro acc; exact ⟨[], by simp⟩
  | cons p d ih =>
    intro acc
    obtain ⟨t, ht⟩ := ih (acc ++ 47 :: p)
    refine ⟨47 :: (p ++ t), ?_⟩
    simp only [List.foldl]
    rw [ht]
    simp [List.append_assoc]

theorem dequeToPathName_shape (d : List (List Nat)) :
    d = [] ∨ ∃ t, dequeToPathName d = 47 :: t := by
  cases d with
  | nil => exact Or.inl rfl
  | cons p d' =>
    refine Or.inr ?_
    obtain ⟨t, ht⟩ := foldl_slash_ext d' (47 :: p)
    exact ⟨p ++ t, by simpa [dequeToPathName] using ht⟩

theorem continueWith_emit_shape {s : PartialPaths} {r : RawRecord}
    {s2 : PartialPaths} {e : Event}
    (h : continueWith s r = some (s2, some e)) :
    ∃ d, e.path_name = dequeToPathName d := by
  unfold continueWith continueWithCore at h
  cases hE : EffectType.fromU8 r.effect_type with
  | none => rw [hE] at h; exact absurd h (by simp)
  | some et =>
    rw [hE] at h
    cases et
    case assoc => simp at h
    case cont =>
      cases hU : utf8Decode r.buf with
      | none => rw [hU] at h; simp at h
      | some pn =>
        rw [hU] at h
        cases hL : (groupReset s r).associated.length with
        | zero => rw [hL] at h; simp at h
        | succ n => rw [hL] at h; simp at h
    all_goals
      simp only [Option.some.injEq, Prod.mk.injEq] at h
      obtain ⟨h1, h2⟩ := h
      exact ⟨(groupReset s r).path_names, by rw [← h2]⟩

theorem runLib_emit_shape (rs : List RawRecord) :
    ∀ (s s' : PartialPaths) (evs : List Event),
      runLib s rs = some (s', evs) →
      ∀ e ∈ evs, ∃ d, e.path_name = dequeToPathName d := by
  induction rs with
  | nil =>
    intro s s' evs h e he
    simp only [runLib, Option.some.injEq, Prod.mk.injEq] at h
    rw [← h.2] at he
    cases he
  | cons r rest ih =>
    intro s s' evs h e he
    cases hc : continueWith s r with
    | none => simp [runLib, hc] at h
    | some pr =>
      obtain ⟨s2, em⟩ := pr
      cases hr : runLib s2 rest with
      | none => simp [runLib, hc, hr] at h
      | some pr2 =>
        obtain ⟨s3, evs2⟩ := pr2
        simp only [runLib, hc, hr, Option.some.injEq, Prod.mk.injEq] at h
        obtain ⟨h1, h2⟩ := h
        rw [← h2] at he
        rcases List.mem_append.mp he with hm | hm
        · cases em with
          | none => cases hm
          | some e0 =>
            have he0 : e = e0 := by simpa using hm
            subst he0
            exact continueWith_emit_shape hc
        · exact ih s2 s3 evs2 hr e hm

/-- Claim C3 counterexample: a terminal create arriving with no prior
continuation records in its group emits an event whose `path_name` is
the empty string — not a non-empty string starting with `/`. -/
theorem c3_counterexample :
    runLib PartialPaths.new [termRec 0 0 0 7 8]
      = some (PartialPaths.mk [] [] 0 .complete,
          [Event.mk [] none 7 8 .dir .create])
    ∧ (decide (([] : List Nat) = [])) = true := by
  exact ⟨by decide, by decide⟩

/-- Claim C3 (amended): every `path_name` the reassembler emits is
either the empty string (when no continuation was accumulated for the
primary path before the terminal record) or begins with `/`. -/
theorem c3_amended (s s' : PartialPaths) (rs : List RawRecord)
    (evs : List Event) (e : Event)
    (h : runLib s rs = some (s', evs)) (he : e ∈ evs) :
    e.path_name = [] ∨ e.path_name.head? = some 47 := by
  obtain ⟨d, hd⟩ := runLib_emit_shape rs s s' evs h e he
  rcases dequeToPathName_shape d with h0 | ⟨t, ht⟩
  · left; rw [hd, h0]; rfl
  · right; rw [hd, ht]; rfl

/-- Claim C3 witness: the amended claim on a run emitting `"/x"`. -/
theorem c3_amended_witness :
    runLib PartialPaths.new [contRec 1 (strBytes ("x")), termRec 1 0 0 9 10]
      = some (PartialPaths.mk [strBytes ("x")] [] 1 .complete,
          [Event.mk (strBytes ("/x")) none 9 10 .dir .create])
    ∧ (Event.mk (strBytes ("/x")) none 9 10 .dir .create
        ∈ [Event.mk (strBytes ("/x")) none 9 10 .dir .create])
    ∧ ((Event.mk (strBytes ("/x")) none 9 10 .dir .create).path_name = []
        ∨ (Event.mk (strBytes ("/x")) none 9 10 .dir .create).path_name.head? = some 47) :=
  ⟨by decide, List.Mem.head _,
   c3_amended PartialPaths.new (PartialPaths.mk [strBytes ("x")] [] 1 .complete)
     [contRec 1 (strBytes ("x")), termRec 1 0 0 9 10]
     [Event.mk (strBytes ("/x")) none 9 10 .dir .create]
     (Event.mk (strBytes ("/x")) none 9 10 .dir .create)
     (by decide) (List.Mem.head _)⟩

/-- Claim C9 counterexample: starting from an empty filesystem, a
`try_new` whose watcher construction fails returns an error yet leaves
the freshly written PID file (containing this process's pid 42) on
disk. -/
theorem c9_counterexample :
    tryNew (FsState.mk none false) 42 .ok false
      = .error (FsState.mk (some (some 42)) false)
    ∧ (decide ((FsState.mk (some (some 42)) false).pidFile = none)) = false := by
  exact ⟨by rfl, by decide⟩

/-- Claim C9 (amended): when `Server::try_new` fails, the filesystem is
either untouched (failure while signalling the previous owner, before
any file is removed or written) or holds exactly the freshly written
PID file and no socket node created by this attempt (failure of watcher
construction, which happens after the PID file write and before the
accepter task binds the socket). -/
theorem c9_amended (fs : FsState) (selfPid : Nat) (ko : KillOutcome)
    (watcherOk : Bool) (fsErr : FsState)
    (h : tryNew fs selfPid ko watcherOk = .error fsErr) :
    fsErr = fs ∨ fsErr = FsState.mk (some (some selfPid)) false := by
  unfold tryNew at h
  cases hpf : fs.pidFile with
  | none =>
    rw [hpf] at h
    cases watcherOk <;> simp_all
  | some op =>
    cases op with
    | none => rw [hpf] at h; cases watcherOk <;> simp_all
    | some p =>
      rw [hpf] at h
      cases ko <;> cases watcherOk <;> simp_all

/-- Claim C9 witness: the amended claim at the counterexample input. -/
theorem c9_amended_witness :
    tryNew (FsState.mk none false) 42 .ok false
      = .error (FsState.mk (some (some 42)) false)
    ∧ (FsState.mk (some (some 42)) false = FsState.mk none false
        ∨ FsState.mk (some (some 42)) false = FsState.mk (some (some 42)) false) :=
  ⟨by rfl,
   c9_amended (FsState.mk none false) 42 .ok false
     (FsState.mk (some (some 42)) false) (by rfl)⟩

theorem runLib_new_head (r : RawRecord) (rs : List RawRecord) :
    runLib PartialPaths.new (r :: rs)
      = runLib ⟨[], [], r.event_group_id, .pending⟩ (r :: rs) := by
  have hcw : continueWith PartialPaths.new r
      = continueWith ⟨[], [], r.event_group_id, .pending⟩ r := by
    unfold continueWith
    have h2 : groupReset ⟨[], [], r.event_group_id, .pending⟩ r
        = ⟨[], [], r.event_group_id, .pending⟩ := by
      simp [groupReset]
    rw [h2]
    by_cases h0 : r.event_group_id = 0
    · have h1 : groupReset PartialPaths.new r = PartialPaths.new := by
        simp [groupReset, PartialPaths.new, h0]
      rw [h1, h0]
      rfl
    · have h1 : groupReset PartialPaths.new r
          = ⟨[], [], r.event_group_id, .pending⟩ := by
        simp [groupReset, PartialPaths.new, h0]
      rw [h1]
  simp only [runLib, hcw]

theorem runLib_conts (cs : List (List Nat)) :
    ∀ (ps : List (List Nat)) (g : Nat) (st : Continuation) (rest : List RawRecord),
      (∀ c ∈ cs, utf8Valid c = true) →
      ∃ st', runLib ⟨ps, [], g, st⟩ (List.map (contRec g) cs ++ rest)
        = runLib ⟨cs.reverse ++ ps, [], g, st'⟩ rest := by
  induction cs with
  | nil => intro ps g st rest _; exact ⟨st, by simp⟩
  | cons c cs ih =>
    intro ps g st rest hv
    have hc : utf8Valid c = true := hv c (by simp)
    have hstep : continueWith ⟨ps, [], g, st⟩ (contRec g c)
        = some (⟨c :: ps, [], g, .pending⟩, none) := by
      have hg : groupReset ⟨ps, [], g, st⟩ (contRec g c) = ⟨ps, [], g, st⟩ := by
        simp [groupReset, contRec]
      unfold continueWith
      rw [hg]
      simp [continueWithCore, contRec, utf8Decode, hc, EffectType.fromU8]
    obtain ⟨st', h'⟩ := ih (c :: ps) g .pending rest (fun x hx => hv x (by simp [hx]))
    refine ⟨st', ?_⟩
    have hrev : (c :: cs).reverse ++ ps = cs.reverse ++ (c :: ps) := by
      simp [List.append_assoc]
    rw [List.map_cons, List.cons_append, hrev]
    simp only [runLib, hstep, h']
    cases hr : runLib ⟨cs.reverse ++ (c :: ps), [], g, st'⟩ rest with
    | none => rfl
    | some pr =>
      obtain ⟨s3, evs3⟩ := pr
      simp

theorem runLib_term (ps : List (List Nat)) (g : Nat) (st : Continuation)
    (et pt ts pd : Nat) (e' : EffectType)
    (hE : EffectType.fromU8 et = some e') (h1 : e' ≠ .cont) (h2 : e' ≠ .assoc) :
    runLib ⟨ps, [], g, st⟩ [termRec g et pt ts pd]
      = some (⟨ps, [], g, .complete⟩,
          [{ path_name := dequeToPathName ps, associated := none,
             timestamp := ts, pid := pd, path_type := PathType.fromU8 pt,
             effect_type := e' }]) := by
  have hg : groupReset ⟨ps, [], g, st⟩ (termRec g et pt ts pd) = ⟨ps, [], g, st⟩ := by
    simp [groupReset, termRec]
  have hcw : continueWith ⟨ps, [], g, st⟩ (termRec g et pt ts pd)
      = some (⟨ps, [], g, .complete⟩,
          some { path_name := dequeToPathName ps, associated := none,
                 timestamp := ts, pid := pd, path_type := PathType.fromU8 pt,
                 effect_type := e' }) := by
    unfold continueWith
    rw [hg]
    unfold continueWithCore
    have hproj : (termRec g et pt ts pd).effect_type = et := rfl
    rw [hproj, hE]
    cases e' <;> simp_all [termRec]
  simp [runLib, hcw]

theorem runIngest_conts (cs : List (List Nat)) :
    ∀ (items : List (List Nat)) (st : Continuation) (g : Nat) (rest : List RawRecord),
      (∀ c ∈ cs, utf8Valid c = true) →
      ∃ st', runIngest ⟨items, none, st⟩ (List.map (contRec g) cs ++ rest)
        = runIngest ⟨items ++ cs, none, st'⟩ rest := by
  induction cs with
  | nil => intro items st g rest _; exact ⟨st, by simp⟩
  | cons c cs ih =>
    intro items st g rest hv
    have hc : utf8Valid c = true := hv c (by simp)
    have hstep : ingestContinueWith ⟨items, none, st⟩ (contRec g c)
        = some (⟨items ++ [c], none, .pending⟩, none) := by
      simp [ingestContinueWith, contRec, utf8Decode, hc, EffectType.fromU8]
    obtain ⟨st', h'⟩ := ih (items ++ [c]) .pending g rest (fun x hx => hv x (by simp [hx]))
    refine ⟨st', ?_⟩
    have happ : items ++ [c] ++ cs = items ++ (c :: cs) := by simp
    rw [happ] at h'
    rw [List.map_cons, List.cons_append]
    simp only [runIngest, hstep, h']
    cases hr : runIngest ⟨items ++ (c :: cs), none, st'⟩ rest with
    | none => rfl
    | some pr =>
      obtain ⟨s3, evs3⟩ := pr
      simp

theorem runIngest_term (items : List (List Nat)) (st : Continuation)
    (g et pt ts pd : Nat) (e' : EffectType)
    (hE : EffectType.fromU8 et = some e') (h1 : e' ≠ .cont) (h2 : e' ≠ .assoc) :
    runIngest ⟨items, none, st⟩ [termRec g et pt ts pd]
      = some (⟨[], none, .complete⟩,
          [{ path_name := concatItemsToPathName items, associated := none,
             timestamp := ts, pid := pd, path_type := PathType.fromU8 pt,
             effect_type := e' }]) := by
  have hcw : ingestContinueWith ⟨items, none, st⟩ (termRec g et pt ts pd)
      = some (⟨[], none, .complete⟩,
          some { path_name := concatItemsToPathName items, associated := none,
                 timestamp := ts, pid := pd, path_type := PathType.fromU8 pt,
                 effect_type := e' }) := by
    unfold ingestContinueWith
    have hproj : (termRec g et pt ts pd).effect_type = et := rfl
    rw [hproj, hE]
    have hu : utf8Decode (termRec g et pt ts pd).buf = some [] := rfl
    rw [hu]
    cases e' <;> simp_all [termRec]
  simp [runIngest, hcw]

/-- Claim C7 counterexample: on the two-record sequence
association-then-create, `lib.rs` emits `associated = "/"` (the sentinel
joined behind a slash) while the ev-ringbuf `ingest.rs` variant emits
`associated = ""`: the two reassemblers are not observationally
equivalent. -/
theorem c7_counterexample :
    (runLib PartialPaths.new c7CexRecords).map Prod.snd
      = some [Event.mk [] (some [47]) 5 6 .file .create]
    ∧ (runIngest IngestPaths.new c7CexRecords).map Prod.snd
      = some [Event.mk [] (some []) 5 6 .file .create]
    ∧ (decide ((some [Event.mk [] (some [47]) 5 6 .file .create] : Option (List Event))
        = some [Event.mk [] (some []) 5 6 .file .create])) = false := by
  exact ⟨by decide, by decide, by decide⟩

/-- Claim C7 (amended): the two ringbuf reassembler variants are not
observationally equivalent in general (see the counterexample); they do
agree on every association-free single-group sequence — continuations
carrying valid-UTF-8 components followed by one terminal record — where
both emit exactly one identical event whose path joins the components
in reverse arrival order with no associated path. -/
theorem c7_amended (cs : List (List Nat)) (g et pt ts pd : Nat)
    (hv : cs.all utf8Valid = true) (het : et ≤ 3) :
    (runLib PartialPaths.new
        (List.map (contRec g) cs ++ [termRec g et pt ts pd])).map Prod.snd
      = (runIngest IngestPaths.new
          (List.map (contRec g) cs ++ [termRec g et pt ts pd])).map Prod.snd
    ∧ ∃ ev, (runLib PartialPaths.new
          (List.map (contRec g) cs ++ [termRec g et pt ts pd])).map Prod.snd
        = some [ev]
        ∧ ev.path_name = dequeToPathName cs.reverse
        ∧ ev.associated = none := by
  have hv' : ∀ c ∈ cs, utf8Valid c = true := by simpa using hv
  obtain ⟨e', hE, hc1, hc2⟩ :
      ∃ e', EffectType.fromU8 et = some e' ∧ e' ≠ .cont ∧ e' ≠ .assoc := by
    interval_cases et
    · exact ⟨.create, rfl, by decide, by decide⟩
    · exact ⟨.rename, rfl, by decide, by decide⟩
    · exact ⟨.link, rfl, by decide, by decide⟩
    · exact ⟨.delete, rfl, by decide, by decide⟩
  have hbridge : runLib PartialPaths.new
        (List.map (contRec g) cs ++ [termRec g et pt ts pd])
      = runLib ⟨[], [], g, .pending⟩
          (List.map (contRec g) cs ++ [termRec g et pt ts pd]) := by
    cases cs with
    | nil => simpa [termRec] using runLib_new_head (termRec g et pt ts pd) []
    | cons c cs' =>
      simpa [contRec] using
        runLib_new_head (contRec g c)
          (List.map (contRec g) cs' ++ [termRec g et pt ts pd])
  have hlib : runLib PartialPaths.new
        (List.map (contRec g) cs ++ [termRec g et pt ts pd])
      = some (⟨cs.reverse, [], g, .complete⟩,
          [{ path_name := dequeToPathName cs.reverse, associated := none,
             timestamp := ts, pid := pd, path_type := PathType.fromU8 pt,
             effect_type := e' }]) := by
    rw [hbridge]
    obtain ⟨st', hconts⟩ := runLib_conts cs [] g .pending [termRec g et pt ts pd] hv'
    rw [hconts]
    rw [show cs.reverse ++ ([] : List (List Nat)) = cs.reverse from List.append_nil _]
    exact runLib_term cs.reverse g st' et pt ts pd e' hE hc1 hc2
  have hing : runIngest IngestPaths.new
        (List.map (contRec g) cs ++ [termRec g et pt ts pd])
      = some (⟨[], none, .complete⟩,
          [{ path_name := concatItemsToPathName cs, associated := none,
             timestamp := ts, pid := pd, path_type := PathType.fromU8 pt,
             effect_type := e' }]) := by
    obtain ⟨st', hconts⟩ := runIngest_conts cs [] .pending g [termRec g et pt ts pd] hv'
    have : runIngest IngestPaths.new
        (List.map (contRec g) cs ++ [termRec g et pt ts pd])
        = runIngest ⟨[] ++ cs, none, st'⟩ [termRec g et pt ts pd] := hconts
    rw [this, show ([] : List (List Nat)) ++ cs = cs from List.nil_append _]
    exact runIngest_term cs st' g et pt ts pd e' hE hc1 hc2
  constructor
  · rw [hlib, hing]
    simp [dequeToPathName, concatItemsToPathName]
  · refine ⟨{ path_name := dequeToPathName cs.reverse, associated := none,
              timestamp := ts, pid := pd, path_type := PathType.fromU8 pt,
              effect_type := e' }, ?_, rfl, rfl⟩
    rw [hlib]
    rfl

/-- Claim C7 witness: the amended claim on the S1-like sequence
`cont "x"`, `cont "etc"`, `create`, where both variants emit one event
with path `"/etc/x"`. -/
theorem c7_amended_witness :
    ([strBytes ("x"), strBytes ("etc")].all utf8Valid) = true
    ∧ (0 : Nat) ≤ 3
    ∧ ((runLib PartialPaths.new (List.map (contRec 1) [strBytes ("x"), strBytes ("etc")]
          ++ [termRec 1 0 1 1000 10])).map Prod.snd
        = (runIngest IngestPaths.new (List.map (contRec 1) [strBytes ("x"), strBytes ("etc")]
          ++ [termRec 1 0 1 1000 10])).map Prod.snd
      ∧ ∃ ev, (runLib PartialPaths.new (List.map (contRec 1) [strBytes ("x"), strBytes ("etc")]
          ++ [termRec 1 0 1 1000 10])).map Prod.snd = some [ev]
          ∧ ev.path_name = dequeToPathName [strBytes ("x"), strBytes ("etc")].reverse
          ∧ ev.associated = none) :=
  ⟨by decide, by decide,
   c7_amended [strBytes ("x"), strBytes ("etc")] 1 0 1 1000 10 (by decide) (by decide)⟩

theorem recvEvent_healthy (e : Nat) (c : Client) :
    (recvEvent e c).healthy = c.healthy := by
  unfold recvEvent
  split <;> rfl

theorem writeAllIdx_healthy (e : Nat) (cs : List Client) :
    ∀ i, (∀ c ∈ cs, c.healthy = true) →
      writeAllIdx e cs i = (cs.map (recvEvent e), []) := by
  induction cs with
  | nil => intro i _; rfl
  | cons c cs ih =>
    intro i hv
    have hc : c.healthy = true := hv c (by simp)
    simp only [writeAllIdx, List.map_cons,
      ih (i + 1) (fun x hx => hv x (by simp [hx])), hc]
    simp [recvEvent, hc]

theorem writeAllIdx_append (e : Nat) (xs ys : List Client) :
    ∀ i, writeAllIdx e (xs ++ ys) i
      = ((writeAllIdx e xs i).1 ++ (writeAllIdx e ys (i + xs.length)).1,
         (writeAllIdx e xs i).2 ++ (writeAllIdx e ys (i + xs.length)).2) := by
  induction xs with
  | nil => intro i; simp [writeAllIdx]
  | cons c xs ih =>
    intro i
    have harith : i + 1 + xs.length = i + (xs.length + 1) := by omega
    simp only [List.cons_append, writeAllIdx, List.length_cons]
    by_cases hc : c.healthy <;> simp [hc, ih (i + 1), harith]

theorem eraseIdx_at_len (y : Client) (ys : List Client) :
    ∀ xs : List Client, (xs ++ y :: ys).eraseIdx xs.length = xs ++ ys := by
  intro xs
  induction xs with
  | nil => rfl
  | cons x xs ih => simp [List.eraseIdx, ih]

/-- Claim C8 counterexample: three subscribers, the first two broken,
the third healthy.  Broadcasting events 1, 2, 3 shows the `if let`
prune step (one stale index per iteration) removing the *healthy*
subscriber: after two steps the healthy client (having received 1 and
2) is still listed, and queued index 1 — recorded when the broken
clients sat at indices 0 and 1 — now points at it; the third step
erases it, so it never receives event 3, while a broken subscriber
remains in the list. -/
theorem c8_counterexample :
    (serverStep c8CexInit 1).bind (fun s => serverStep s 2)
      = some ⟨[Client.mk false [], Client.mk true [1, 2]], [], [1, 0]⟩
    ∧ ((serverStep c8CexInit 1).bind (fun s => serverStep s 2)).bind
        (fun s => serverStep s 3)
      = some ⟨[Client.mk false []], [], [0, 0]⟩ := by
  exact ⟨by decide, by decide⟩

/-- Claim C8 (amended): the frame property holds only for a single
broken subscriber per broadcast: with subscribers `A ++ [b] ++ C`, all
of `A` and `C` healthy and `b` broken, the broadcast of `e1` delivers
`e1` to every healthy subscriber and queues exactly `b`'s index; the
next iteration's prune removes exactly `b`, leaves every other element
(in order), and delivers `e2` to all of them.  With two or more broken
subscribers in one broadcast the queued indices go stale and a healthy
subscriber can be pruned (see the counterexample). -/
theorem c8_amended (A C : List Client) (b : Client) (e1 e2 : Nat)
    (hA : A.all Client.healthy = true) (hC : C.all Client.healthy = true)
    (hb : b.healthy = false) :
    serverStep ⟨A ++ b :: C, [], []⟩ e1
      = some ⟨A.map (recvEvent e1) ++ b :: C.map (recvEvent e1), [], [A.length]⟩
    ∧ serverStep ⟨A.map (recvEvent e1) ++ b :: C.map (recvEvent e1), [], [A.length]⟩ e2
      = some ⟨(A.map (recvEvent e1)).map (recvEvent e2)
            ++ (C.map (recvEvent e1)).map (recvEvent e2), [], []⟩ := by
  have hA' : ∀ c ∈ A, c.healthy = true := by simpa using hA
  have hC' : ∀ c ∈ C, c.healthy = true := by simpa using hC
  have hbC : writeAllIdx e1 (b :: C) A.length
      = (b :: C.map (recvEvent e1), [A.length]) := by
    simp only [writeAllIdx, writeAllIdx_healthy e1 C (A.length + 1) hC']
    simp [hb]
  have hw1 : writeAllIdx e1 (A ++ b :: C) 0
      = (A.map (recvEvent e1) ++ b :: C.map (recvEvent e1), [A.length]) := by
    rw [writeAllIdx_append e1 A (b :: C) 0]
    rw [writeAllIdx_healthy e1 A 0 hA']
    simp [hbC]
  constructor
  · simp [serverStep, hw1]
  · have hhealthy : ∀ c ∈ A.map (recvEvent e1) ++ C.map (recvEvent e1),
        c.healthy = true := by
      intro c hcm
      rcases List.mem_append.mp hcm with hm | hm <;>
      · obtain ⟨c0, hc0, rfl⟩ := List.mem_map.mp hm
        rw [recvEvent_healthy]
        first
        | exact hA' c0 hc0
        | exact hC' c0 hc0
    have hlen : A.length < (A.map (recvEvent e1) ++ b :: C.map (recvEvent e1)).length := by
      simp
    have herase : (A.map (recvEvent e1) ++ b :: C.map (recvEvent e1)).eraseIdx A.length
        = A.map (recvEvent e1) ++ C.map (recvEvent e1) := by
      have h := eraseIdx_at_len b (C.map (recvEvent e1)) (A.map (recvEvent e1))
      simpa [List.length_map] using h
    have hw2 : writeAllIdx e2 (A.map (recvEvent e1) ++ C.map (recvEvent e1)) 0
        = ((A.map (recvEvent e1)).map (recvEvent e2)
            ++ (C.map (recvEvent e1)).map (recvEvent e2), []) := by
      rw [writeAllIdx_healthy e2 _ 0 hhealthy]
      simp [List.map_append]
    simp [serverStep, hlen, herase, hw2]

/-- Claim C8 witness: the amended claim with one healthy subscriber on
each side of the broken one. -/
theorem c8_amended_witness :
    ([Client.mk true []].all Client.healthy) = true
    ∧ ([Client.mk true []].all Client.healthy) = true
    ∧ (Client.mk false []).healthy = false
    ∧ (serverStep ⟨[Client.mk true []] ++ Client.mk false [] :: [Client.mk true []], [], []⟩ 5
        = some ⟨[Client.mk true []].map (recvEvent 5)
              ++ Client.mk false [] :: [Client.mk true []].map (recvEvent 5), [],
              [[Client.mk true []].length]⟩
      ∧ serverStep ⟨[Client.mk true []].map (recvEvent 5)
              ++ Client.mk false [] :: [Client.mk true []].map (recvEvent 5), [],
              [[Client.mk true []].length]⟩ 6
        = some ⟨([Client.mk true []].map (recvEvent 5)).map (recvEvent 6)
              ++ ([Client.mk true []].map (recvEvent 5)).map (recvEvent 6), [], []⟩) :=
  ⟨by decide, by decide, by decide,
   c8_amended [Client.mk true []] [Client.mk true []] (Client.mk false []) 5 6
     (by decide) (by decide) (by decide)⟩
